import Mathlib

/-!
Formal model of the enrollment core of the Mergington High School
activities API (`src/app.py`).

The store holds `Activity` records (name, description, schedule,
`max_participants`, and the ordered roster of participant emails).  The
two mutating endpoints, `signup_for_activity` and
`unregister_from_activity`, look the activity up by name, run their
checks in the order written in the source, and either raise an HTTP
error (modelled as `ApiError`) or mutate the found activity's roster and
return a confirmation message.
-/

/-- An activity record, mirroring the `Activity` ORM model of `app.py`:
`name`, `description`, `schedule`, `max_participants`, and the ordered
list of enrolled participant emails (the `participants` relationship,
one entry per `Participant` row, in insertion order). -/
structure Activity where
  name : String
  description : String
  schedule : String
  max_participants : Nat
  participants : List String
deriving Repr, DecidableEq

/-- The store: the ordered collection of activity records
(the `activities` table, in storage order). -/
abbrev Store := List Activity

/-- The four client errors the endpoints raise via `HTTPException`:
404 "Activity not found", 400 "Student is already signed up",
400 "Activity is full", 400 "Student is not signed up for this activity". -/
inductive ApiError where
  | notFound
  | alreadyEnrolled
  | capacityExceeded
  | notEnrolled
deriving Repr, DecidableEq

/-- Replace the first activity whose name matches `n` by `f` of it,
leaving every other record unchanged.  This models mutating the record
returned by `db.query(Activity).filter(Activity.name == name).first()`
and committing. -/
def updateFirst (s : Store) (n : String) (f : Activity → Activity) : Store :=
  match s with
  | [] => []
  | a :: rest => if a.name == n then f a :: rest else a :: updateFirst rest n f

/-- The `signup_for_activity` endpoint of `app.py`: look up the activity by name
(404 if absent), reject if the email is already on the roster
(400 already signed up), reject if the roster is at capacity
(400 activity is full), otherwise append a participant row and return
the confirmation message `f"Signed up {email} for {activity_name}"`. -/
def signup (s : Store) (activity_name email : String) :
    Except ApiError (Store × String) :=
  match s.find? (fun a => a.name == activity_name) with
  | none => .error .notFound
  | some activity =>
    if email ∈ activity.participants then
      .error .alreadyEnrolled
    else if activity.participants.length ≥ activity.max_participants then
      .error .capacityExceeded
    else
      .ok (updateFirst s activity_name
            (fun a => { a with participants := a.participants ++ [email] }),
          "Signed up " ++ email ++ " for " ++ activity_name)

/-- The `unregister_from_activity` endpoint of `app.py`: look up the activity by
name (404 if absent), look up the participant row with that email
(400 not signed up if absent), otherwise delete that row (the first
matching one) and return `f"Unregistered {email} from {activity_name}"`. -/
def unregister (s : Store) (activity_name email : String) :
    Except ApiError (Store × String) :=
  match s.find? (fun a => a.name == activity_name) with
  | none => .error .notFound
  | some activity =>
    if email ∈ activity.participants then
      .ok (updateFirst s activity_name
            (fun a => { a with participants := a.participants.erase email }),
          "Unregistered " ++ email ++ " from " ++ activity_name)
    else
      .error .notEnrolled

/-- A request to one of the two mutating endpoints. -/
inductive Op where
  | signup (activity_name email : String)
  | unregister (activity_name email : String)
deriving Repr, DecidableEq

/-- The activity name an operation targets. -/
def Op.activityName : Op → String
  | .signup n _ => n
  | .unregister n _ => n

/-- The email an operation carries. -/
def Op.email : Op → String
  | .signup _ e => e
  | .unregister _ e => e

/-- The store after serving one request: on success the new store, on an
HTTP error the store is untouched (the exception is raised before any
`db.add`/`db.delete`/`db.commit`). -/
def applyOp (s : Store) (op : Op) : Store :=
  match op with
  | .signup n e =>
    match signup s n e with
    | .ok (s2, _) => s2
    | .error _ => s
  | .unregister n e =>
    match unregister s n e with
    | .ok (s2, _) => s2
    | .error _ => s

/-- The store after serving a sequence of requests in order. -/
def run (s : Store) (ops : List Op) : Store := ops.foldl applyOp s

/-- The "Chess Club" seed activity from `init_db`. -/
def chess : Activity :=
  { name := "Chess Club"
    description := "Learn strategies and compete in chess tournaments"
    schedule := "Fridays, 3:30 PM - 5:00 PM"
    max_participants := 12
    participants := ["michael@mergington.edu", "daniel@mergington.edu"] }

/-- A one-activity store used to instantiate the theorems. -/
def demoStore : Store := [chess]

/-- A full capacity-1 activity whose one participant is `"e"`. -/
def fullAct : Activity :=
  { name := "A", description := "d", schedule := "s"
    max_participants := 1, participants := ["e"] }

/-- A store holding just `fullAct`. -/
def fullStore : Store := [fullAct]

/-- Updating the first matching record keeps the number of records. -/
theorem updateFirst_length (s : Store) (n : String) (f : Activity → Activity) :
    (updateFirst s n f).length = s.length := by
  induction s with
  | nil => rfl
  | cons a rest ih =>
    by_cases h : a.name == n
    · simp [updateFirst, h]
    · simp [updateFirst, h, ih]

/-- Looking the name up after `updateFirst` finds the updated record,
provided the update keeps the name. -/
theorem find?_updateFirst (s : Store) (n : String) (f : Activity → Activity)
    (hf : ∀ a, (f a).name = a.name) :
    (updateFirst s n f).find? (fun a => a.name == n) =
      (s.find? (fun a => a.name == n)).map f := by
  induction s with
  | nil => rfl
  | cons a rest ih =>
    by_cases h : a.name == n
    · have hfa : ((f a).name == n) = true := by rw [hf]; exact h
      have h1 : updateFirst (a :: rest) n f = f a :: rest := by
        simp [updateFirst, h]
      rw [h1]
      simp [List.find?_cons, hfa, h]
    · have h' : (a.name == n) = false := by simpa using h
      have h1 : updateFirst (a :: rest) n f = a :: updateFirst rest n f := by
        simp [updateFirst, h]
      rw [h1]
      simp only [List.find?_cons, h']
      exact ih

/-- Two successive updates of the same name compose, provided the first
keeps the name. -/
theorem updateFirst_updateFirst (s : Store) (n : String) (f g : Activity → Activity)
    (hf : ∀ a, (f a).name = a.name) :
    updateFirst (updateFirst s n f) n g = updateFirst s n (fun a => g (f a)) := by
  induction s with
  | nil => rfl
  | cons a rest ih =>
    by_cases h : a.name == n
    · have hfa : ((f a).name == n) = true := by rw [hf]; exact h
      simp [updateFirst, h, hfa]
    · simp [updateFirst, h, ih]

/-- Updating the first record with name `n` by a function that fixes the
record actually found leaves the store unchanged. -/
theorem updateFirst_id_find? (s : Store) (n : String) (f : Activity → Activity)
    (act : Activity) (hfind : s.find? (fun a => a.name == n) = some act)
    (hact : f act = act) : updateFirst s n f = s := by
  induction s with
  | nil => rfl
  | cons a rest ih =>
    by_cases h : a.name == n
    · simp only [List.find?_cons, h] at hfind
      injection hfind with h'
      subst h'
      simp [updateFirst, h, hact]
    · have h' : (a.name == n) = false := by simpa using h
      simp only [List.find?_cons, h'] at hfind
      simp [updateFirst, h, ih hfind]

/-- Per-index view of `updateFirst`: every position is unchanged, except
possibly the position of the first record named `n`, which becomes `f`
of the record that `find?` returns. -/
theorem updateFirst_getElem? (s : Store) (n : String) (f : Activity → Activity)
    (i : Nat) :
    (updateFirst s n f)[i]? = s[i]? ∨
    ∃ a, s[i]? = some a ∧ (a.name == n) = true ∧
      s.find? (fun x => x.name == n) = some a ∧
      (updateFirst s n f)[i]? = some (f a) := by
  induction s generalizing i with
  | nil => left; rfl
  | cons a rest ih =>
    by_cases h : a.name == n
    · match i with
      | 0 =>
        right
        exact ⟨a, by simp, h, by simp [List.find?_cons, h],
          by simp [updateFirst, h]⟩
      | i + 1 =>
        left
        simp [updateFirst, h]
    · match i with
      | 0 => left; simp [updateFirst, h]
      | i + 1 =>
        rcases ih i with h1 | ⟨b, hb1, hb2, hb3, hb4⟩
        · left
          simpa [updateFirst, h] using h1
        · right
          refine ⟨b, by simpa using hb1, hb2, ?_, by simpa [updateFirst, h] using hb4⟩
          have h' : (a.name == n) = false := by simpa using h
          simp only [List.find?_cons, h']
          exact hb3

/-- Inversion of a successful signup: the activity was found, the email
was not enrolled, the roster was under capacity, the new store appends
the email to that roster, and the message is the confirmation string. -/
theorem signup_ok_inv (s : Store) (n e : String) (s2 : Store) (m : String)
    (h : signup s n e = .ok (s2, m)) :
    ∃ act, s.find? (fun a => a.name == n) = some act ∧
      e ∉ act.participants ∧
      act.participants.length < act.max_participants ∧
      s2 = updateFirst s n (fun a => { a with participants := a.participants ++ [e] }) ∧
      m = "Signed up " ++ e ++ " for " ++ n := by
  unfold signup at h
  cases hf : s.find? (fun a => a.name == n) with
  | none => rw [hf] at h; exact absurd h (by simp)
  | some act =>
    rw [hf] at h
    by_cases hm : e ∈ act.participants
    · simp [hm] at h
    · by_cases hc : act.participants.length ≥ act.max_participants
      · simp [hm, hc] at h
      · simp [hm, hc] at h
        exact ⟨act, rfl, hm, by omega, h.1.symm, h.2.symm⟩

/-- Inversion of a successful unregister: the activity was found, the
email was enrolled, the new store erases the first matching participant
row from that roster, and the message is the confirmation string. -/
theorem unregister_ok_inv (s : Store) (n e : String) (s2 : Store) (m : String)
    (h : unregister s n e = .ok (s2, m)) :
    ∃ act, s.find? (fun a => a.name == n) = some act ∧
      e ∈ act.participants ∧
      s2 = updateFirst s n (fun a => { a with participants := a.participants.erase e }) ∧
      m = "Unregistered " ++ e ++ " from " ++ n := by
  unfold unregister at h
  cases hf : s.find? (fun a => a.name == n) with
  | none => rw [hf] at h; exact absurd h (by simp)
  | some act =>
    rw [hf] at h
    by_cases hm : e ∈ act.participants
    · simp [hm] at h
      exact ⟨act, rfl, hm, h.1.symm, h.2.symm⟩
    · simp [hm] at h

/-- Serving one request keeps the number of activity records. -/
theorem applyOp_length (s : Store) (op : Op) :
    (applyOp s op).length = s.length := by
  cases op with
  | signup n e =>
    cases hs : signup s n e with
    | error err => simp [applyOp, hs]
    | ok r =>
      obtain ⟨s2, m⟩ := r
      obtain ⟨act, -, -, -, hs2, -⟩ := signup_ok_inv s n e s2 m hs
      simp [applyOp, hs, hs2, updateFirst_length]
  | unregister n e =>
    cases hs : unregister s n e with
    | error err => simp [applyOp, hs]
    | ok r =>
      obtain ⟨s2, m⟩ := r
      obtain ⟨act, -, -, hs2, -⟩ := unregister_ok_inv s n e s2 m hs
      simp [applyOp, hs, hs2, updateFirst_length]

/-- Per-index view of serving one request: every position is unchanged,
except possibly the position of the targeted activity, whose roster
either gains the email at the end (after passing the duplicate and
capacity checks) or loses its first row carrying the email. -/
theorem applyOp_getElem? (s : Store) (op : Op) (i : Nat) :
    (applyOp s op)[i]? = s[i]? ∨
    ∃ a, s[i]? = some a ∧ (a.name == op.activityName) = true ∧
      ((op.email ∉ a.participants ∧
        a.participants.length < a.max_participants ∧
        (applyOp s op)[i]? =
          some { a with participants := a.participants ++ [op.email] }) ∨
       (op.email ∈ a.participants ∧
        (applyOp s op)[i]? =
          some { a with participants := a.participants.erase op.email })) := by
  cases op with
  | signup n e =>
    cases hs : signup s n e with
    | error err => left; simp [applyOp, hs]
    | ok r =>
      obtain ⟨s2, m⟩ := r
      obtain ⟨act, hfind, hmem, hcap, hs2, -⟩ := signup_ok_inv s n e s2 m hs
      have happ : applyOp s (Op.signup n e) = s2 := by simp [applyOp, hs]
      rcases updateFirst_getElem? s n
          (fun a => { a with participants := a.participants ++ [e] }) i with
        h1 | ⟨b, hb1, hb2, hb3, hb4⟩
      · left; rw [happ, hs2]; exact h1
      · right
        rw [hfind] at hb3
        obtain rfl : act = b := Option.some.inj hb3
        exact ⟨act, hb1, hb2, Or.inl ⟨hmem, hcap, by rw [happ, hs2]; exact hb4⟩⟩
  | unregister n e =>
    cases hs : unregister s n e with
    | error err => left; simp [applyOp, hs]
    | ok r =>
      obtain ⟨s2, m⟩ := r
      obtain ⟨act, hfind, hmem, hs2, -⟩ := unregister_ok_inv s n e s2 m hs
      have happ : applyOp s (Op.unregister n e) = s2 := by simp [applyOp, hs]
      rcases updateFirst_getElem? s n
          (fun a => { a with participants := a.participants.erase e }) i with
        h1 | ⟨b, hb1, hb2, hb3, hb4⟩
      · left; rw [happ, hs2]; exact h1
      · right
        rw [hfind] at hb3
        obtain rfl : act = b := Option.some.inj hb3
        exact ⟨act, hb1, hb2, Or.inr ⟨hmem, by rw [happ, hs2]; exact hb4⟩⟩

/-- C1: Capacity invariant: for every activity (the record at position
`i` of the store), if its participant count is at most its
`max_participants`, then after any sequence of signup and unregister
requests the count is still at most its `max_participants`; in
particular a successful signup never pushes the count above capacity. -/
theorem capacity_invariant (s : Store) (ops : List Op) (i : Nat) (act : Activity)
    (hget : s[i]? = some act)
    (hcap : act.participants.length ≤ act.max_participants) :
    ∃ act2, (run s ops)[i]? = some act2 ∧
      act2.participants.length ≤ act2.max_participants := by
  induction ops generalizing s act with
  | nil => exact ⟨act, hget, hcap⟩
  | cons op ops ih =>
    rw [show run s (op :: ops) = run (applyOp s op) ops from rfl]
    rcases applyOp_getElem? s op i with h1 | ⟨a, ha, -, hcase⟩
    · exact ih (applyOp s op) act (h1.trans hget) hcap
    · obtain rfl : a = act := Option.some.inj (ha.symm.trans hget)
      rcases hcase with ⟨-, hlt, hnew⟩ | ⟨-, hnew⟩
      · refine ih (applyOp s op) _ hnew ?_
        show (a.participants ++ [op.email]).length ≤ a.max_participants
        rw [List.length_append, List.length_singleton]
        omega
      · refine ih (applyOp s op) _ hnew ?_
        exact le_trans (List.length_erase_le _ _) hcap

/-- Witness for `capacity_invariant`: the Chess Club store, one signup
followed by one unregister. -/
theorem capacity_invariant_witness :
    ∃ act2,
      (run demoStore
        [Op.signup "Chess Club" "new@mergington.edu",
         Op.unregister "Chess Club" "daniel@mergington.edu"])[0]? = some act2 ∧
      act2.participants.length ≤ act2.max_participants :=
  capacity_invariant demoStore
    [Op.signup "Chess Club" "new@mergington.edu",
     Op.unregister "Chess Club" "daniel@mergington.edu"] 0 chess rfl
    (by decide)

/-- C2: No-duplicate invariant: for every activity (the record at
position `i`), if its roster has no duplicate emails, then after any
sequence of signup and unregister requests it still has none. -/
theorem no_duplicate_invariant (s : Store) (ops : List Op) (i : Nat) (act : Activity)
    (hget : s[i]? = some act)
    (hnd : act.participants.Nodup) :
    ∃ act2, (run s ops)[i]? = some act2 ∧ act2.participants.Nodup := by
  induction ops generalizing s act with
  | nil => exact ⟨act, hget, hnd⟩
  | cons op ops ih =>
    rw [show run s (op :: ops) = run (applyOp s op) ops from rfl]
    rcases applyOp_getElem? s op i with h1 | ⟨a, ha, -, hcase⟩
    · exact ih (applyOp s op) act (h1.trans hget) hnd
    · obtain rfl : a = act := Option.some.inj (ha.symm.trans hget)
      rcases hcase with ⟨hmem, -, hnew⟩ | ⟨-, hnew⟩
      · refine ih (applyOp s op) _ hnew ?_
        show (a.participants ++ [op.email]).Nodup
        rw [List.nodup_append]
        refine ⟨hnd, List.nodup_singleton _, ?_⟩
        intro x hx hxe
        rw [List.mem_singleton] at hxe
        subst hxe
        exact hmem hx
      · exact ih (applyOp s op) _ hnew (List.Nodup.erase _ hnd)

/-- Witness for `no_duplicate_invariant`: the Chess Club store and one
signup request. -/
theorem no_duplicate_invariant_witness :
    ∃ act2,
      (run demoStore [Op.signup "Chess Club" "new@mergington.edu"])[0]? =
        some act2 ∧ act2.participants.Nodup :=
  no_duplicate_invariant demoStore
    [Op.signup "Chess Club" "new@mergington.edu"] 0 chess rfl (by decide)

/-- C3: Signup check ordering: when no activity carries the requested
name, signup fails NotFound whatever the other conditions; when the
activity found is full and already contains the email, signup fails
AlreadyEnrolled, not CapacityExceeded. -/
theorem signup_check_order (s : Store) (n e : String) :
    ((∀ a ∈ s, a.name ≠ n) → signup s n e = .error .notFound) ∧
    (∀ act, s.find? (fun a => a.name == n) = some act →
      e ∈ act.participants →
      act.participants.length ≥ act.max_participants →
      signup s n e = .error .alreadyEnrolled) := by
  constructor
  · intro h
    have hf : s.find? (fun a => a.name == n) = none := by
      rw [List.find?_eq_none]
      intro x hx
      simpa using h x hx
    unfold signup
    rw [hf]
  · intro act hf hm _
    unfold signup
    rw [hf]
    simp [hm]

/-- Witness for `signup_check_order`: an unknown club name, and a full
capacity-1 activity already holding the email. -/
theorem signup_check_order_witness :
    signup demoStore "Unknown Club" "x@mergington.edu" = .error .notFound ∧
    signup fullStore "A" "e" = .error .alreadyEnrolled :=
  ⟨(signup_check_order demoStore "Unknown Club" "x@mergington.edu").1 (by decide),
    (signup_check_order fullStore "A" "e").2 fullAct rfl (by decide) (by decide)⟩

/-- C4: Signup success postcondition: when the activity exists, the
email is not enrolled, and the roster is strictly below capacity,
signup succeeds, the email is appended to that activity's roster (count
up by exactly one), and the returned message contains the email and the
activity name. -/
theorem signup_success (s : Store) (n e : String) (act : Activity)
    (hfind : s.find? (fun a => a.name == n) = some act)
    (hmem : e ∉ act.participants)
    (hcap : act.participants.length < act.max_participants) :
    ∃ s2 act2, signup s n e = .ok (s2, "Signed up " ++ e ++ " for " ++ n) ∧
      s2.find? (fun a => a.name == n) = some act2 ∧
      act2.participants = act.participants ++ [e] ∧
      e ∈ act2.participants ∧
      act2.participants.length = act.participants.length + 1 := by
  have hcap' : ¬(act.participants.length ≥ act.max_participants) := by omega
  refine ⟨updateFirst s n (fun a => { a with participants := a.participants ++ [e] }),
    { act with participants := act.participants ++ [e] }, ?_, ?_, rfl, ?_, ?_⟩
  · unfold signup
    rw [hfind]
    simp [hmem, hcap']
  · rw [find?_updateFirst s n
      (fun a => { a with participants := a.participants ++ [e] })
      (fun a => rfl), hfind]
    rfl
  · simp
  · simp

/-- Witness for `signup_success`: the Chess Club scenario from the spec,
signing up a fresh email. -/
theorem signup_success_witness :
    ∃ s2 act2,
      signup demoStore "Chess Club" "new@mergington.edu" =
        .ok (s2, "Signed up " ++ "new@mergington.edu" ++ " for " ++ "Chess Club") ∧
      s2.find? (fun a => a.name == "Chess Club") = some act2 ∧
      act2.participants = chess.participants ++ ["new@mergington.edu"] ∧
      "new@mergington.edu" ∈ act2.participants ∧
      act2.participants.length = chess.participants.length + 1 :=
  signup_success demoStore "Chess Club" "new@mergington.edu" chess rfl
    (by decide) (by decide)

/-- C5: Unregister raises-iff: unregister fails NotFound iff no activity
carries the name; it fails NotEnrolled iff the activity exists but the
email is not on its roster; otherwise it succeeds, erases the email
from that roster (so under the no-duplicate invariant the email is no
longer enrolled), and returns the confirmation message. -/
theorem unregister_spec (s : Store) (n e : String) :
    (unregister s n e = .error .notFound ↔ (∀ a ∈ s, a.name ≠ n)) ∧
    (unregister s n e = .error .notEnrolled ↔
      ∃ act, s.find? (fun a => a.name == n) = some act ∧ e ∉ act.participants) ∧
    (∀ act, s.find? (fun a => a.name == n) = some act → e ∈ act.participants →
      ∃ s2 act2,
        unregister s n e = .ok (s2, "Unregistered " ++ e ++ " from " ++ n) ∧
        s2.find? (fun a => a.name == n) = some act2 ∧
        act2.participants = act.participants.erase e ∧
        (act.participants.Nodup → e ∉ act2.participants)) := by
  have hnone : s.find? (fun a => a.name == n) = none ↔ (∀ a ∈ s, a.name ≠ n) := by
    rw [List.find?_eq_none]
    constructor
    · intro h a ha; simpa using h a ha
    · intro h a ha; simpa using h a ha
  refine ⟨?_, ?_, ?_⟩
  · rw [← hnone]
    cases hf : s.find? (fun a => a.name == n) with
    | none => unfold unregister; rw [hf]; simp
    | some act =>
      unfold unregister
      rw [hf]
      by_cases hm : e ∈ act.participants
      · simp [hm]
      · simp [hm]
  · cases hf : s.find? (fun a => a.name == n) with
    | none => unfold unregister; rw [hf]; simp
    | some act =>
      unfold unregister
      rw [hf]
      by_cases hm : e ∈ act.participants
      · simp [hm]
      · simp [hm]
  · intro act hf hm
    refine ⟨updateFirst s n (fun a => { a with participants := a.participants.erase e }),
      { act with participants := act.participants.erase e }, ?_, ?_, rfl, ?_⟩
    · unfold unregister
      rw [hf]
      simp [hm]
    · rw [find?_updateFirst s n
        (fun a => { a with participants := a.participants.erase e })
        (fun a => rfl), hf]
      rfl
    · intro hnd
      exact List.Nodup.not_mem_erase hnd

/-- Witness for `unregister_spec`: unregistering the sole participant of
the capacity-1 activity. -/
theorem unregister_spec_witness :
    ∃ s2 act2,
      unregister fullStore "A" "e" =
        .ok (s2, "Unregistered " ++ "e" ++ " from " ++ "A") ∧
      s2.find? (fun a => a.name == "A") = some act2 ∧
      act2.participants = fullAct.participants.erase "e" ∧
      (fullAct.participants.Nodup → "e" ∉ act2.participants) :=
  (unregister_spec fullStore "A" "e").2.2 fullAct rfl (by decide)

/-- C6: Symmetric round trip: whenever `signup s n e` succeeds yielding
store `s2`, `unregister s2 n e` succeeds and returns the store — hence
in particular the activity's roster, same list of emails and same
length — to exactly its prior state `s`. -/
theorem signup_unregister_round_trip (s : Store) (n e : String) (s2 : Store)
    (m : String) (h : signup s n e = .ok (s2, m)) :
    ∃ m2, unregister s2 n e = .ok (s, m2) := by
  obtain ⟨act, hfind, hmem, hcap, hs2, -⟩ := signup_ok_inv s n e s2 m h
  have hf2 : s2.find? (fun a => a.name == n) =
      some { act with participants := act.participants ++ [e] } := by
    rw [hs2, find?_updateFirst s n
      (fun a => { a with participants := a.participants ++ [e] })
      (fun a => rfl), hfind]
    rfl
  have hm2 : e ∈ ({ act with participants := act.participants ++ [e] } :
      Activity).participants := by
    simp
  have hstep : unregister s2 n e =
      .ok (updateFirst s2 n (fun a => { a with participants := a.participants.erase e }),
        "Unregistered " ++ e ++ " from " ++ n) := by
    unfold unregister
    rw [hf2]
    simp [hm2]
  have hstore : updateFirst s2 n
      (fun a => { a with participants := a.participants.erase e }) = s := by
    rw [hs2, updateFirst_updateFirst s n
      (fun a => { a with participants := a.participants ++ [e] })
      (fun a => { a with participants := a.participants.erase e })
      (fun a => rfl)]
    refine updateFirst_id_find? s n _ act hfind ?_
    show ({ act with participants := (act.participants ++ [e]).erase e } :
      Activity) = act
    rw [List.erase_append_right _ hmem, List.erase_cons_head, List.append_nil]
  rw [hstep, hstore]
  exact ⟨"Unregistered " ++ e ++ " from " ++ n, rfl⟩

/-- The store after signing `new@mergington.edu` up for Chess Club. -/
def demoSignedUp : Store :=
  [{ chess with participants := chess.participants ++ ["new@mergington.edu"] }]

/-- Witness for `signup_unregister_round_trip`: signing the fresh email
up for Chess Club and unregistering it restores the seed store. -/
theorem signup_unregister_round_trip_witness :
    ∃ m2, unregister demoSignedUp "Chess Club" "new@mergington.edu" =
      .ok (demoStore, m2) :=
  signup_unregister_round_trip demoStore "Chess Club" "new@mergington.edu"
    demoSignedUp "Signed up new@mergington.edu for Chess Club" rfl

/-- C7: Atomicity on error: a failing signup or unregister leaves the
store exactly as it was (the exception is raised before any mutation),
and after a successful signup the same signup again fails
AlreadyEnrolled without changing the store. -/
theorem error_atomicity (s : Store) (n e : String) :
    (∀ err, signup s n e = .error err → applyOp s (.signup n e) = s) ∧
    (∀ err, unregister s n e = .error err → applyOp s (.unregister n e) = s) ∧
    (∀ s2 m, signup s n e = .ok (s2, m) →
      signup s2 n e = .error .alreadyEnrolled ∧
      applyOp s2 (.signup n e) = s2) := by
  refine ⟨?_, ?_, ?_⟩
  · intro err h; simp [applyOp, h]
  · intro err h; simp [applyOp, h]
  · intro s2 m h
    obtain ⟨act, hfind, hmem, hcap, hs2, -⟩ := signup_ok_inv s n e s2 m h
    have hf2 : s2.find? (fun a => a.name == n) =
        some { act with participants := act.participants ++ [e] } := by
      rw [hs2, find?_updateFirst s n
        (fun a => { a with participants := a.participants ++ [e] })
        (fun a => rfl), hfind]
      rfl
    have hm2 : e ∈ ({ act with participants := act.participants ++ [e] } :
        Activity).participants := by
      simp
    have herr : signup s2 n e = .error .alreadyEnrolled := by
      unfold signup
      rw [hf2]
      simp [hm2]
    exact ⟨herr, by simp [applyOp, herr]⟩

/-- Witness for `error_atomicity`: signing the same email up for Chess
Club twice — the second call fails AlreadyEnrolled and changes nothing. -/
theorem error_atomicity_witness :
    signup demoSignedUp "Chess Club" "new@mergington.edu" =
      .error .alreadyEnrolled ∧
    applyOp demoSignedUp (.signup "Chess Club" "new@mergington.edu") =
      demoSignedUp :=
  (error_atomicity demoStore "Chess Club" "new@mergington.edu").2.2
    demoSignedUp "Signed up new@mergington.edu for Chess Club" rfl

/-- C9: Frame effect: serving one signup or unregister request keeps the
number of activity records, keeps every record's name, description,
schedule, and max_participants, and leaves every record whose name is
not the targeted one entirely unchanged — only the targeted activity's
participant list may change. -/
theorem frame_effect (s : Store) (op : Op) :
    (applyOp s op).length = s.length ∧
    (∀ (i : Nat) (act : Activity), s[i]? = some act →
      ∃ act2, (applyOp s op)[i]? = some act2 ∧
        act2.name = act.name ∧
        act2.description = act.description ∧
        act2.schedule = act.schedule ∧
        act2.max_participants = act.max_participants) ∧
    (∀ (i : Nat) (act : Activity), s[i]? = some act →
      act.name ≠ op.activityName →
      (applyOp s op)[i]? = some act) := by
  refine ⟨applyOp_length s op, ?_, ?_⟩
  · intro i act hget
    rcases applyOp_getElem? s op i with h1 | ⟨a, ha, -, hcase⟩
    · exact ⟨act, h1.trans hget, rfl, rfl, rfl, rfl⟩
    · obtain rfl : a = act := Option.some.inj (ha.symm.trans hget)
      rcases hcase with ⟨-, -, hnew⟩ | ⟨-, hnew⟩
      · exact ⟨_, hnew, rfl, rfl, rfl, rfl⟩
      · exact ⟨_, hnew, rfl, rfl, rfl, rfl⟩
  · intro i act hget hname
    rcases applyOp_getElem? s op i with h1 | ⟨a, ha, hn, -⟩
    · exact h1.trans hget
    · obtain rfl : a = act := Option.some.inj (ha.symm.trans hget)
      exact absurd (by simpa using hn) hname

/-- Witness for `frame_effect`: a signup request against the Chess Club
store keeps the record's identity fields. -/
theorem frame_effect_witness :
    ∃ act2,
      (applyOp demoStore (.signup "Chess Club" "new@mergington.edu"))[0]? =
        some act2 ∧
      act2.name = chess.name ∧
      act2.description = chess.description ∧
      act2.schedule = chess.schedule ∧
      act2.max_participants = chess.max_participants :=
  (frame_effect demoStore (.signup "Chess Club" "new@mergington.edu")).2.1
    0 chess rfl

/-- C10: Exact, case-sensitive string identity for emails: two distinct
email strings — e.g. differing only in letter case — are distinct
participants: with one enrolled and the other not, signup of the other
succeeds so both are enrolled simultaneously, and unregistering the
second never removes the first. -/
theorem email_exact_identity (s : Store) (n e1 e2 : String) (act : Activity)
    (hne : e1 ≠ e2)
    (hfind : s.find? (fun a => a.name == n) = some act)
    (h1 : e1 ∈ act.participants)
    (h2 : e2 ∉ act.participants)
    (hcap : act.participants.length < act.max_participants) :
    ∃ s2 m act2, signup s n e2 = .ok (s2, m) ∧
      s2.find? (fun a => a.name == n) = some act2 ∧
      e1 ∈ act2.participants ∧ e2 ∈ act2.participants ∧
      (∀ s3 m2 act3, unregister s2 n e2 = .ok (s3, m2) →
        s3.find? (fun a => a.name == n) = some act3 →
        e1 ∈ act3.participants) := by
  obtain ⟨s2, act2, hok, hf2, hparts, hmem2, -⟩ :=
    signup_success s n e2 act hfind h2 hcap
  refine ⟨s2, _, act2, hok, hf2, ?_, hmem2, ?_⟩
  · rw [hparts]
    exact List.mem_append_left _ h1
  · intro s3 m2 act3 hunreg hf3
    obtain ⟨act', hfind', hmem', hs3, -⟩ := unregister_ok_inv s2 n e2 s3 m2 hunreg
    obtain rfl : act2 = act' := Option.some.inj (hf2.symm.trans hfind')
    have hf3' : s3.find? (fun a => a.name == n) =
        some { act2 with participants := act2.participants.erase e2 } := by
      rw [hs3, find?_updateFirst s2 n
        (fun a => { a with participants := a.participants.erase e2 })
        (fun a => rfl), hfind']
      rfl
    obtain rfl : act3 = { act2 with participants := act2.participants.erase e2 } :=
      Option.some.inj (hf3.symm.trans hf3')
    show e1 ∈ act2.participants.erase e2
    rw [List.mem_erase_of_ne hne, hparts]
    exact List.mem_append_left _ h1

/-- An activity whose sole participant is the upper-cased email. -/
def caseAct : Activity :=
  { name := "B", description := "d", schedule := "s"
    max_participants := 5, participants := ["A@x"] }

/-- A store holding just `caseAct`. -/
def caseStore : Store := [caseAct]

/-- Witness for `email_exact_identity`: `"A@x"` enrolled, `"a@x"` signs
up — both end up enrolled, and unregistering `"a@x"` keeps `"A@x"`. -/
theorem email_exact_identity_witness :
    ∃ s2 m act2, signup caseStore "B" "a@x" = .ok (s2, m) ∧
      s2.find? (fun a => a.name == "B") = some act2 ∧
      "A@x" ∈ act2.participants ∧ "a@x" ∈ act2.participants ∧
      (∀ s3 m2 act3, unregister s2 "B" "a@x" = .ok (s3, m2) →
        s3.find? (fun a => a.name == "B") = some act3 →
        "A@x" ∈ act3.participants) :=
  email_exact_identity caseStore "B" "A@x" "a@x" caseAct (by decide) rfl
    (by decide) (by decide) (by decide)

example : signup demoStore "Nope" "x" = .error .notFound := rfl
example : signup fullStore "A" "e" = .error .alreadyEnrolled := rfl
example : signup fullStore "A" "f" = .error .capacityExceeded := rfl
example : unregister fullStore "A" "f" = .error .notEnrolled := rfl
example :
    unregister fullStore "A" "e" =
      .ok ([{ fullAct with participants := [] }], "Unregistered e from A") := rfl
